import Mathlib

/-!
Verification of the parsing/aggregation engine of `iptables_exporter`.

The Go source (`iptables_exporter.go`) is shallowly embedded: the integer
packet/byte counters (converted to `float64` only at the metrics boundary)
are modelled as exact naturals, the Go map `ruleCounter` is modelled as an
association list built by the same insert-or-merge step the `Collect` loop
performs, and the channel of emitted metrics is modelled as a list.  Parts
of the repository that live outside the provided source (the `iptables`
package: the ruleset parser and the capture-pattern application inside
`GetTables`, as well as the external regexp engine) are modelled from the
specification and marked as such in their doc comments.
-/

namespace IptablesExporter

/-- A parsed rule after identifier derivation: in the `iptables` package each
rule carries the identifier captured from its body in its `Rule` field, plus
packet and byte counters; `Collect` consumes exactly these three fields. -/
structure Rule where
  rule : String
  packets : Nat
  bytes : Nat
  deriving DecidableEq

/-- Per-identifier accumulated counters; source type `ruleValues` (fields
`bytes`, `packets`) in `iptables_exporter.go`. -/
structure ruleValues where
  bytes : Nat
  packets : Nat
  deriving DecidableEq

/-- The keyed accumulator `ruleCounter` (a Go `map[string]*ruleValues`),
modelled as an association list whose keys stay pairwise distinct. -/
abbrev ruleCounter := List (String × ruleValues)

/-- One iteration of the dedup loop in `Collect` (lines 136–148 of
`iptables_exporter.go`): if the rule's identifier is already present its
counters are increased, otherwise a fresh entry is inserted. -/
def addRule (rc : ruleCounter) (r : Rule) : ruleCounter :=
  match rc with
  | [] => [(r.rule, { bytes := r.bytes, packets := r.packets })]
  | (k, v) :: rest =>
    if k = r.rule then
      (k, { bytes := v.bytes + r.bytes, packets := v.packets + r.packets }) :: rest
    else
      (k, v) :: addRule rest r

/-- The dedup fold `Collect` performs over one chain's rule sequence. -/
def aggregateRules (rules : List Rule) : ruleCounter :=
  List.foldl addRule [] rules

/-- Lookup in the keyed accumulator. -/
def lookupRC (rc : ruleCounter) (k : String) : Option ruleValues :=
  match rc with
  | [] => none
  | (k2, v) :: rest => if k2 = k then some v else lookupRC rest k

/-- Number of entries of the accumulator carrying key `k`. -/
def countKey (rc : ruleCounter) (k : String) : Nat :=
  match rc with
  | [] => 0
  | (k2, _) :: rest => (if k2 = k then 1 else 0) + countKey rest k

/-- The rules of a chain whose derived identifier is `k`. -/
def keyRules (rules : List Rule) (k : String) : List Rule :=
  match rules with
  | [] => []
  | r :: rest => if r.rule = k then r :: keyRules rest k else keyRules rest k

/-- Total packets of a list of rules. -/
def sumPackets (rules : List Rule) : Nat := (rules.map Rule.packets).sum

/-- Total bytes of a list of rules. -/
def sumBytes (rules : List Rule) : Nat := (rules.map Rule.bytes).sum

/-- Counter update for one rule, starting from the present entry if any. -/
def bump (o : Option ruleValues) (r : Rule) : ruleValues :=
  match o with
  | some v => { bytes := v.bytes + r.bytes, packets := v.packets + r.packets }
  | none => { bytes := r.bytes, packets := r.packets }

/-- Accumulated counters contributed by a batch of rules on top of `o`. -/
def bumpAll (o : Option ruleValues) (l : List Rule) : Option ruleValues :=
  match o, l with
  | none, [] => none
  | some v, l => some { bytes := v.bytes + sumBytes l, packets := v.packets + sumPackets l }
  | none, _ => some { bytes := sumBytes l, packets := sumPackets l }

theorem sumPackets_nil : sumPackets [] = 0 := rfl

theorem sumBytes_nil : sumBytes [] = 0 := rfl

theorem sumPackets_cons (r : Rule) (l : List Rule) :
    sumPackets (r :: l) = r.packets + sumPackets l := by
  simp [sumPackets]

theorem sumBytes_cons (r : Rule) (l : List Rule) :
    sumBytes (r :: l) = r.bytes + sumBytes l := by
  simp [sumBytes]

theorem lookupRC_addRule_self (rc : ruleCounter) (r : Rule) :
    lookupRC (addRule rc r) r.rule = some (bump (lookupRC rc r.rule) r) := by
  induction rc with
  | nil => simp [addRule, lookupRC, bump]
  | cons hd rest ih =>
    obtain ⟨k2, v⟩ := hd
    by_cases h : k2 = r.rule
    · simp [addRule, lookupRC, bump, h]
    · simp [addRule, lookupRC, h, ih]

theorem lookupRC_addRule_other (rc : ruleCounter) (r : Rule) (k : String)
    (h : ¬ r.rule = k) :
    lookupRC (addRule rc r) k = lookupRC rc k := by
  induction rc with
  | nil => simp [addRule, lookupRC, h]
  | cons hd rest ih =>
    obtain ⟨k2, v⟩ := hd
    by_cases h2 : k2 = r.rule
    · have hk : ¬ k2 = k := fun hh => h (h2.symm.trans hh)
      simp [addRule, lookupRC, h2, hk, h]
    · by_cases h3 : k2 = k
      · have h2b : ¬ k = r.rule := fun hh => h2 (h3.trans hh)
        simp [addRule, lookupRC, h2, h3, h2b]
      · simp [addRule, lookupRC, h2, h3, ih]

theorem lookupRC_foldl_addRule (l : List Rule) (rc : ruleCounter) (k : String) :
    lookupRC (List.foldl addRule rc l) k = bumpAll (lookupRC rc k) (keyRules l k) := by
  induction l generalizing rc with
  | nil =>
    cases h : lookupRC rc k <;> simp [keyRules, bumpAll, sumBytes, sumPackets, h]
  | cons r rest ih =>
    rw [List.foldl_cons]
    by_cases h : r.rule = k
    · subst h
      rw [ih, lookupRC_addRule_self]
      simp only [keyRules, if_pos rfl]
      cases ho : lookupRC rc r.rule with
      | none => simp [bump, bumpAll, sumBytes_cons, sumPackets_cons]
      | some v => simp [bump, bumpAll, sumBytes_cons, sumPackets_cons, Nat.add_assoc]
    · rw [ih, lookupRC_addRule_other rc r k h]
      simp [keyRules, h]

/-- Characterization of the dedup fold: looking up an identifier in the
aggregated accumulator returns the summed counters of exactly the rules
carrying that identifier (or nothing when no rule does). -/
theorem lookupRC_aggregateRules (l : List Rule) (k : String) :
    lookupRC (aggregateRules l) k = bumpAll none (keyRules l k) := by
  have h := lookupRC_foldl_addRule l [] k
  simpa [aggregateRules, lookupRC] using h

theorem countKey_addRule_self (rc : ruleCounter) (r : Rule) :
    countKey (addRule rc r) r.rule =
      if countKey rc r.rule = 0 then 1 else countKey rc r.rule := by
  induction rc with
  | nil => simp [addRule, countKey]
  | cons hd rest ih =>
    obtain ⟨k2, v⟩ := hd
    by_cases h : k2 = r.rule
    · simp only [addRule, if_pos h, countKey, if_pos h]
      have hne : ¬ (1 + countKey rest r.rule = 0) := by omega
      rw [if_neg hne]
    · simp [addRule, countKey, h, ih]

theorem countKey_addRule_other (rc : ruleCounter) (r : Rule) (k : String)
    (h : ¬ r.rule = k) :
    countKey (addRule rc r) k = countKey rc k := by
  induction rc with
  | nil => simp [addRule, countKey, h]
  | cons hd rest ih =>
    obtain ⟨k2, v⟩ := hd
    by_cases h2 : k2 = r.rule
    · simp [addRule, countKey, h2]
    · simp [addRule, countKey, h2, ih]

theorem countKey_foldl_addRule (l : List Rule) (rc : ruleCounter) (k : String)
    (h : countKey rc k ≤ 1) :
    countKey (List.foldl addRule rc l) k =
      if countKey rc k = 1 ∨ k ∈ l.map Rule.rule then 1 else 0 := by
  induction l generalizing rc with
  | nil =>
    rcases Nat.le_one_iff_eq_zero_or_eq_one.mp h with h0 | h0 <;> simp [h0]
  | cons r rest ih =>
    rw [List.foldl_cons]
    by_cases hm : r.rule = k
    · subst hm
      have hle : countKey (addRule rc r) r.rule ≤ 1 := by
        rw [countKey_addRule_self]; split <;> omega
      rw [ih (addRule rc r) hle, countKey_addRule_self]
      by_cases h0 : countKey rc r.rule = 0
      · simp [h0, List.map_cons]
      · have h1 : countKey rc r.rule = 1 := by omega
        simp [h0, h1]
    · have hle : countKey (addRule rc r) k ≤ 1 := by
        rw [countKey_addRule_other rc r k hm]; exact h
      rw [ih (addRule rc r) hle, countKey_addRule_other rc r k hm]
      have hm2 : ¬ k = r.rule := fun hh => hm hh.symm
      simp [List.map_cons, hm2]

/-- Each identifier occurs at most once in the aggregated accumulator, and
exactly once when some rule carries it. -/
theorem countKey_aggregateRules (l : List Rule) (k : String) :
    countKey (aggregateRules l) k = if k ∈ l.map Rule.rule then 1 else 0 := by
  have h := countKey_foldl_addRule l [] k (by simp [countKey])
  simpa [aggregateRules, countKey] using h

theorem keyRules_eq_nil_iff (l : List Rule) (k : String) :
    keyRules l k = [] ↔ k ∉ l.map Rule.rule := by
  induction l with
  | nil => simp [keyRules]
  | cons r rest ih =>
    by_cases h : r.rule = k
    · simp [keyRules, h]
    · simp only [keyRules, if_neg h, ih, List.map_cons, List.mem_cons]
      constructor
      · intro hk hc
        rcases hc with hc | hc
        · exact h hc.symm
        · exact hk hc
      · intro hk hc
        exact hk (Or.inr hc)

theorem keyRules_eq_filter (l : List Rule) (k : String) :
    keyRules l k = l.filter (fun r => r.rule == k) := by
  induction l with
  | nil => rfl
  | cons r rest ih =>
    by_cases h : r.rule = k
    · simp [keyRules, h, List.filter_cons, ih]
    · simp [keyRules, h, List.filter_cons, ih]

theorem bumpAll_perm (o : Option ruleValues) (l1 l2 : List Rule) (h : l1.Perm l2) :
    bumpAll o l1 = bumpAll o l2 := by
  have hb : sumBytes l1 = sumBytes l2 := (h.map Rule.bytes).sum_eq
  have hp : sumPackets l1 = sumPackets l2 := (h.map Rule.packets).sum_eq
  cases o with
  | some v => simp [bumpAll, hb, hp]
  | none =>
    cases l1 with
    | nil =>
      have h2 : l2 = [] := h.symm.eq_nil
      subst h2; rfl
    | cons a t =>
      cases l2 with
      | nil => exact absurd h.eq_nil (by simp)
      | cons b u => simp [bumpAll, hb, hp]

/-- C1: within a chain, rules with equal derived identifiers are merged into
exactly one accumulator entry whose packet and byte counters are the sums of
the merged rules' counters. -/
theorem dedup_merges_counters (rules : List Rule) (k : String)
    (h : k ∈ rules.map Rule.rule) :
    countKey (aggregateRules rules) k = 1 ∧
    lookupRC (aggregateRules rules) k =
      some { bytes := sumBytes (keyRules rules k),
             packets := sumPackets (keyRules rules k) } := by
  constructor
  · rw [countKey_aggregateRules]
    simp [h]
  · rw [lookupRC_aggregateRules]
    have hne : ¬ keyRules rules k = [] := by
      rw [keyRules_eq_nil_iff]
      simpa using h
    cases hkr : keyRules rules k with
    | nil => exact absurd hkr hne
    | cons a l => simp [bumpAll]

/-- Witness for C1: the spec's concrete instance — three rules whose derived
identifier is "allow" with counters (10,100), (20,200), (5,50) aggregate to a
single entry with packets 35 and bytes 350. -/
theorem dedup_merges_counters_witness :
    countKey (aggregateRules
        [{ rule := "allow", packets := 10, bytes := 100 },
         { rule := "allow", packets := 20, bytes := 200 },
         { rule := "allow", packets := 5, bytes := 50 }]) "allow" = 1 ∧
    lookupRC (aggregateRules
        [{ rule := "allow", packets := 10, bytes := 100 },
         { rule := "allow", packets := 20, bytes := 200 },
         { rule := "allow", packets := 5, bytes := 50 }]) "allow" =
      some { bytes := 350, packets := 35 } := by
  have h := dedup_merges_counters
      [{ rule := "allow", packets := 10, bytes := 100 },
       { rule := "allow", packets := 20, bytes := 200 },
       { rule := "allow", packets := 5, bytes := 50 }] "allow" (by decide)
  exact ⟨h.1, by rw [h.2]; rfl⟩

/-- C3: the per-chain dedup fold is order-insensitive — permuting the chain's
rule sequence changes neither any identifier's looked-up counters nor its
entry count in the aggregated accumulator. -/
theorem aggregate_perm_invariant (l1 l2 : List Rule) (h : l1.Perm l2) (k : String) :
    lookupRC (aggregateRules l1) k = lookupRC (aggregateRules l2) k ∧
    countKey (aggregateRules l1) k = countKey (aggregateRules l2) k := by
  constructor
  · rw [lookupRC_aggregateRules, lookupRC_aggregateRules]
    apply bumpAll_perm
    rw [keyRules_eq_filter, keyRules_eq_filter]
    exact h.filter _
  · rw [countKey_aggregateRules, countKey_aggregateRules]
    have hm : k ∈ l1.map Rule.rule ↔ k ∈ l2.map Rule.rule := (h.map Rule.rule).mem_iff
    simp only [hm]

/-- Witness for C3 on a concrete transposition of two rules. -/
theorem aggregate_perm_invariant_witness :
    lookupRC (aggregateRules
        [{ rule := "a", packets := 1, bytes := 2 },
         { rule := "b", packets := 3, bytes := 4 }]) "a" =
      lookupRC (aggregateRules
        [{ rule := "b", packets := 3, bytes := 4 },
         { rule := "a", packets := 1, bytes := 2 }]) "a" ∧
    countKey (aggregateRules
        [{ rule := "a", packets := 1, bytes := 2 },
         { rule := "b", packets := 3, bytes := 4 }]) "a" =
      countKey (aggregateRules
        [{ rule := "b", packets := 3, bytes := 4 },
         { rule := "a", packets := 1, bytes := 2 }]) "a" :=
  aggregate_perm_invariant
    [{ rule := "a", packets := 1, bytes := 2 },
     { rule := "b", packets := 3, bytes := 4 }]
    [{ rule := "b", packets := 3, bytes := 4 },
     { rule := "a", packets := 1, bytes := 2 }]
    (List.Perm.swap _ _ _) "a"

/-- A raw parsed rule as the spec's data model has it: the textual body with
counters stripped, plus its packet and byte counters (§3). -/
structure RawRule where
  body : String
  packets : Nat
  bytes : Nat
  deriving DecidableEq

/-- Total packets of a list of raw rules. -/
def rawSumPackets (rs : List RawRule) : Nat := (rs.map RawRule.packets).sum

/-- Total bytes of a list of raw rules. -/
def rawSumBytes (rs : List RawRule) : Nat := (rs.map RawRule.bytes).sum

/-- Modelled from the spec: identifier derivation (§4.2) happens in the
`iptables` package, which is not among the provided sources.  Per §9 the
capture pattern is modelled as a strategy — derive an identifier from the
rule body, or report non-match — and a rule whose body the pattern does not
match is excluded from the per-identifier output. -/
def applyPattern (p : String → Option String) (rs : List RawRule) : List Rule :=
  rs.filterMap fun r =>
    (p r.body).map fun i => { rule := i, packets := r.packets, bytes := r.bytes }

/-- Modelled from the spec: the default capture pattern is "match everything",
making the identifier the whole rule body (§6). -/
def matchEverything : String → Option String := fun body => some body

/-- Total packets recorded in the accumulator. -/
def rcSumPackets (rc : ruleCounter) : Nat := (rc.map fun e => e.2.packets).sum

/-- Total bytes recorded in the accumulator. -/
def rcSumBytes (rc : ruleCounter) : Nat := (rc.map fun e => e.2.bytes).sum

theorem rcSum_addRule (rc : ruleCounter) (r : Rule) :
    rcSumPackets (addRule rc r) = rcSumPackets rc + r.packets ∧
    rcSumBytes (addRule rc r) = rcSumBytes rc + r.bytes := by
  induction rc with
  | nil => simp [addRule, rcSumPackets, rcSumBytes]
  | cons hd rest ih =>
    obtain ⟨k2, v⟩ := hd
    by_cases h : k2 = r.rule
    · simp [addRule, rcSumPackets, rcSumBytes, h]
      omega
    · simp only [addRule, if_neg h, rcSumPackets, rcSumBytes, List.map_cons,
        List.sum_cons] at ih ⊢
      omega

theorem rcSum_foldl_addRule (l : List Rule) (rc : ruleCounter) :
    rcSumPackets (List.foldl addRule rc l) = rcSumPackets rc + sumPackets l ∧
    rcSumBytes (List.foldl addRule rc l) = rcSumBytes rc + sumBytes l := by
  induction l generalizing rc with
  | nil => simp [sumPackets, sumBytes]
  | cons r rest ih =>
    rw [List.foldl_cons]
    have hstep := rcSum_addRule rc r
    have hrec := ih (addRule rc r)
    rw [sumPackets_cons, sumBytes_cons]
    omega

/-- The dedup fold conserves the total counters of the rules it is given. -/
theorem rcSum_aggregateRules (l : List Rule) :
    rcSumPackets (aggregateRules l) = sumPackets l ∧
    rcSumBytes (aggregateRules l) = sumBytes l := by
  have h := rcSum_foldl_addRule l []
  simpa [aggregateRules, rcSumPackets, rcSumBytes] using h

theorem applyPattern_cons_none (p : String → Option String) (r : RawRule)
    (rest : List RawRule) (hp : p r.body = none) :
    applyPattern p (r :: rest) = applyPattern p rest := by
  simp [applyPattern, List.filterMap_cons, hp]

theorem applyPattern_cons_some (p : String → Option String) (r : RawRule)
    (rest : List RawRule) (i : String) (hp : p r.body = some i) :
    applyPattern p (r :: rest) =
      { rule := i, packets := r.packets, bytes := r.bytes } :: applyPattern p rest := by
  simp [applyPattern, List.filterMap_cons, hp]

theorem rawSumPackets_cons (r : RawRule) (rest : List RawRule) :
    rawSumPackets (r :: rest) = r.packets + rawSumPackets rest := by
  simp [rawSumPackets]

theorem rawSumBytes_cons (r : RawRule) (rest : List RawRule) :
    rawSumBytes (r :: rest) = r.bytes + rawSumBytes rest := by
  simp [rawSumBytes]

theorem applyPattern_sum_le (p : String → Option String) (rs : List RawRule) :
    sumPackets (applyPattern p rs) ≤ rawSumPackets rs ∧
    sumBytes (applyPattern p rs) ≤ rawSumBytes rs := by
  induction rs with
  | nil => simp [applyPattern, sumPackets, sumBytes, rawSumPackets, rawSumBytes]
  | cons r rest ih =>
    rw [rawSumPackets_cons, rawSumBytes_cons]
    cases hp : p r.body with
    | none =>
      rw [applyPattern_cons_none p r rest hp]
      omega
    | some i =>
      rw [applyPattern_cons_some p r rest i hp, sumPackets_cons, sumBytes_cons]
      simp only []
      omega

theorem applyPattern_sum_eq (p : String → Option String) (rs : List RawRule)
    (h : ∀ r ∈ rs, (p r.body).isSome) :
    sumPackets (applyPattern p rs) = rawSumPackets rs ∧
    sumBytes (applyPattern p rs) = rawSumBytes rs := by
  induction rs with
  | nil => simp [applyPattern, sumPackets, sumBytes, rawSumPackets, rawSumBytes]
  | cons r rest ih =>
    have hr : (p r.body).isSome := h r (List.mem_cons_self r rest)
    cases hp : p r.body with
    | none => rw [hp] at hr; exact absurd hr (by simp)
    | some i =>
      have hrec := ih fun r2 hm => h r2 (List.mem_cons_of_mem r hm)
      rw [rawSumPackets_cons, rawSumBytes_cons,
        applyPattern_cons_some p r rest i hp, sumPackets_cons, sumBytes_cons]
      simp only []
      omega

/-- C2: within a chain, the aggregated per-identifier totals never exceed the
chain's raw rule totals, and match them exactly when the capture pattern
matches every rule of the chain. -/
theorem counter_conservation (p : String → Option String) (rs : List RawRule) :
    rcSumPackets (aggregateRules (applyPattern p rs)) ≤ rawSumPackets rs ∧
    rcSumBytes (aggregateRules (applyPattern p rs)) ≤ rawSumBytes rs ∧
    ((∀ r ∈ rs, (p r.body).isSome) →
      rcSumPackets (aggregateRules (applyPattern p rs)) = rawSumPackets rs ∧
      rcSumBytes (aggregateRules (applyPattern p rs)) = rawSumBytes rs) := by
  have hagg := rcSum_aggregateRules (applyPattern p rs)
  have hle := applyPattern_sum_le p rs
  refine ⟨by omega, by omega, fun hall => ?_⟩
  have heq := applyPattern_sum_eq p rs hall
  omega

/-- Witness for C2: a pattern that matches both rules of a chain conserves
the totals exactly. -/
theorem counter_conservation_witness :
    rcSumPackets (aggregateRules (applyPattern (fun _ => some "allow")
      [{ body := "allow A", packets := 10, bytes := 100 },
       { body := "allow B", packets := 20, bytes := 200 }])) =
      rawSumPackets
      [{ body := "allow A", packets := 10, bytes := 100 },
       { body := "allow B", packets := 20, bytes := 200 }] ∧
    rcSumBytes (aggregateRules (applyPattern (fun _ => some "allow")
      [{ body := "allow A", packets := 10, bytes := 100 },
       { body := "allow B", packets := 20, bytes := 200 }])) =
      rawSumBytes
      [{ body := "allow A", packets := 10, bytes := 100 },
       { body := "allow B", packets := 20, bytes := 200 }] :=
  (counter_conservation (fun _ => some "allow")
    [{ body := "allow A", packets := 10, bytes := 100 },
     { body := "allow B", packets := 20, bytes := 200 }]).2.2 (by decide)

theorem countKey_append (rc1 rc2 : ruleCounter) (k : String) :
    countKey (rc1 ++ rc2) k = countKey rc1 k + countKey rc2 k := by
  induction rc1 with
  | nil => simp [countKey]
  | cons hd rest ih =>
    obtain ⟨k2, v⟩ := hd
    rw [List.cons_append]
    simp only [countKey]
    rw [ih]
    omega

theorem addRule_fresh (rc : ruleCounter) (r : Rule) (h : countKey rc r.rule = 0) :
    addRule rc r = rc ++ [(r.rule, { bytes := r.bytes, packets := r.packets })] := by
  induction rc with
  | nil => simp [addRule]
  | cons hd rest ih =>
    obtain ⟨k2, v⟩ := hd
    simp only [countKey] at h
    by_cases h2 : k2 = r.rule
    · rw [if_pos h2] at h
      omega
    · rw [if_neg h2] at h
      simp only [addRule, if_neg h2, List.cons_append]
      rw [ih (by omega)]

theorem foldl_addRule_fresh (l : List Rule) (rc : ruleCounter)
    (h1 : (l.map Rule.rule).Nodup) (h2 : ∀ r ∈ l, countKey rc r.rule = 0) :
    List.foldl addRule rc l =
      rc ++ l.map fun r => (r.rule, { bytes := r.bytes, packets := r.packets }) := by
  induction l generalizing rc with
  | nil => simp
  | cons r rest ih =>
    rw [List.foldl_cons, addRule_fresh rc r (h2 r (List.mem_cons_self r rest))]
    rw [List.map_cons] at h1
    have hfresh : ∀ r2 ∈ rest,
        countKey (rc ++ [(r.rule, { bytes := r.bytes, packets := r.packets })]) r2.rule = 0 := by
      intro r2 hm
      rw [countKey_append]
      have hz := h2 r2 (List.mem_cons_of_mem r hm)
      have hne : ¬ r.rule = r2.rule := by
        intro hc
        exact (List.nodup_cons.mp h1).1 (hc ▸ List.mem_map_of_mem Rule.rule hm)
      simp [countKey, hne, hz]
    have hrec := ih
      (rc ++ [(r.rule, ({ bytes := r.bytes, packets := r.packets } : ruleValues))])
      (List.nodup_cons.mp h1).2 hfresh
    rw [hrec]
    simp

/-- When every identifier in the chain is distinct the dedup fold collapses
nothing: it returns one entry per rule, in order. -/
theorem aggregateRules_nodup (l : List Rule) (h : (l.map Rule.rule).Nodup) :
    aggregateRules l =
      l.map fun r => (r.rule, { bytes := r.bytes, packets := r.packets }) := by
  have hres := foldl_addRule_fresh l [] h (fun r _ => by simp [countKey])
  simpa [aggregateRules] using hres

theorem applyPattern_matchEverything (rs : List RawRule) :
    applyPattern matchEverything rs =
      rs.map fun r => { rule := r.body, packets := r.packets, bytes := r.bytes } := by
  induction rs with
  | nil => rfl
  | cons r rest ih =>
    simp [applyPattern, matchEverything, List.filterMap_cons] at ih ⊢
    exact ih

/-- Counterexample to C8 as stated: with the default "match everything"
pattern a chain containing the same rule body twice aggregates to a single
entry, so the per-identifier entry count (1) differs from the raw rule count
(2) — duplicate rules are still merged. -/
theorem default_pattern_identity_cex :
    ¬ ((aggregateRules (applyPattern matchEverything
        [{ body := "-A INPUT -j ACCEPT", packets := 1, bytes := 2 },
         { body := "-A INPUT -j ACCEPT", packets := 3, bytes := 4 }])).length =
      ([{ body := "-A INPUT -j ACCEPT", packets := 1, bytes := 2 },
        { body := "-A INPUT -j ACCEPT", packets := 3, bytes := 4 }] : List RawRule).length) := by
  decide

/-- C8 (amended): with the default "match everything" pattern the identifier
is the whole rule body, so aggregation yields exactly one entry per distinct
rule body; when the chain's rule bodies are pairwise distinct the entry count
equals the chain's raw rule count. -/
theorem default_pattern_identity (rs : List RawRule)
    (h : (rs.map RawRule.body).Nodup) :
    aggregateRules (applyPattern matchEverything rs) =
      rs.map (fun r => (r.body, { bytes := r.bytes, packets := r.packets })) ∧
    (aggregateRules (applyPattern matchEverything rs)).length = rs.length := by
  rw [applyPattern_matchEverything]
  have hkeys : ((rs.map fun r =>
      ({ rule := r.body, packets := r.packets, bytes := r.bytes } : Rule)).map
        Rule.rule).Nodup := by
    rw [List.map_map]
    exact h
  rw [aggregateRules_nodup _ hkeys]
  simp [List.map_map, Function.comp]

/-- Witness for C8 (amended): two distinct rule bodies stay two entries. -/
theorem default_pattern_identity_witness :
    aggregateRules (applyPattern matchEverything
      [{ body := "-A INPUT -j ACCEPT", packets := 1, bytes := 2 },
       { body := "-A INPUT -j DROP", packets := 3, bytes := 4 }]) =
      [("-A INPUT -j ACCEPT", { bytes := 2, packets := 1 }),
       ("-A INPUT -j DROP", { bytes := 4, packets := 3 })] ∧
    (aggregateRules (applyPattern matchEverything
      [{ body := "-A INPUT -j ACCEPT", packets := 1, bytes := 2 },
       { body := "-A INPUT -j DROP", packets := 3, bytes := 4 }])).length = 2 :=
  default_pattern_identity
    [{ body := "-A INPUT -j ACCEPT", packets := 1, bytes := 2 },
     { body := "-A INPUT -j DROP", packets := 3, bytes := 4 }] (by decide)

/-- A chain as parsed: the default policy token ("-" is the no-policy
sentinel), the default-policy counter pair, and the rule sequence in dump
order (§3 of the spec). -/
structure RawChain where
  policy : String
  packets : Nat
  bytes : Nat
  rules : List RawRule
  deriving DecidableEq

/-- A table: chain name to chain, in declaration order. -/
abbrev RawTable := List (String × RawChain)

/-- A ruleset: table name to table, in dump order. -/
abbrev RawRuleset := List (String × RawTable)

/-- The grammar rule a malformed line violates (§4.1). -/
inductive ViolatedRule where
  | malformedChainLine
  | unknownChain
  | unrecognizedLine
  deriving DecidableEq

/-- A parse failure: the 1-based number of the offending line, the line
content, and the violated rule (§4.1). -/
structure ParseError where
  lineNum : Nat
  line : String
  rule : ViolatedRule
  deriving DecidableEq

/-- Whitespace characters recognized when trimming a line. -/
def isWS (c : Char) : Bool := c = ' ' || c = '\t' || c = '\r'

/-- Drop leading whitespace. -/
def dropWS : List Char → List Char
  | [] => []
  | c :: rest => if isWS c then dropWS rest else c :: rest

/-- Trim whitespace from both ends. -/
def trimChars (cs : List Char) : List Char :=
  (dropWS (dropWS cs).reverse).reverse

/-- A line consisting solely of whitespace. -/
def isBlank : List Char → Bool
  | [] => true
  | c :: rest => isWS c && isBlank rest

/-- Whether the second list begins with the first. -/
def charsBeginWith : List Char → List Char → Bool
  | [], _ => true
  | _ :: _, [] => false
  | p :: ps, c :: cs => p = c && charsBeginWith ps cs

/-- Split a character list at every occurrence of `sep`. -/
def splitOnChar (sep : Char) : List Char → List (List Char)
  | [] => [[]]
  | c :: rest =>
    match splitOnChar sep rest with
    | [] => [[]]
    | h :: t => if c = sep then [] :: h :: t else (c :: h) :: t

/-- The characters before the first space. -/
def takeUntilSpace : List Char → List Char
  | [] => []
  | c :: rest => if c = ' ' then [] else c :: takeUntilSpace rest

/-- The characters after the first space (empty when there is none). -/
def dropThroughSpace : List Char → List Char
  | [] => []
  | c :: rest => if c = ' ' then rest else dropThroughSpace rest

/-- Accumulate decimal digits; any non-digit character is a failure. -/
def charsToNatAux : List Char → Nat → Option Nat
  | [], acc => some acc
  | c :: rest, acc =>
    if c.isDigit then charsToNatAux rest (acc * 10 + (c.toNat - '0'.toNat))
    else none

/-- A non-empty all-digit numeral, read as a non-negative integer. -/
def charsToNat (cs : List Char) : Option Nat :=
  match cs with
  | [] => none
  | _ => charsToNatAux cs 0

/-- Modelled from the spec: a bracketed counter pair `[<packets>:<bytes>]`
made of two colon-separated non-negative integers (§4.1); anything else is
rejected, never coerced. -/
def parseCounters (cs : List Char) : Option (Nat × Nat) :=
  match cs with
  | '[' :: rest =>
    match splitOnChar ':' rest with
    | [ps, bsClose] =>
      match bsClose.reverse with
      | ']' :: bsRev =>
        match charsToNat ps, charsToNat bsRev.reverse with
        | some pv, some bv => some (pv, bv)
        | _, _ => none
      | _ => none
    | _ => none
  | _ => none

/-- Modelled from the spec: append a rule to the chain it references, or
fail when that chain has not been declared in the current table (§4.1,
`UnknownChain`). -/
def appendRuleToChain (chains : RawTable) (name : String) (r : RawRule) :
    Option RawTable :=
  match chains with
  | [] => none
  | (n, c) :: rest =>
    if n = name then
      some ((n, { c with rules := c.rules ++ [r] }) :: rest)
    else
      (appendRuleToChain rest name r).map fun rest2 => (n, c) :: rest2

/-- Modelled from the spec: parser state — the tables already closed plus the
table currently open, if any (§4.1). -/
structure ParseState where
  finished : RawRuleset
  current : Option (String × RawTable)

/-- The tables a state yields: closed tables plus the still-open one. -/
def flushState (st : ParseState) : RawRuleset :=
  st.finished ++ (match st.current with | some tab => [tab] | none => [])

/-- Modelled from the spec: classify and apply one line of the dump (§4.1).
A `*` line opens a table, a `:` line declares a chain (failing with
`MalformedChainLine` when its bracketed counter pair is not two
colon-separated non-negative integers), a counter-prefixed `-A` line appends
a rule to the chain it names (failing with `UnknownChain` when undeclared),
`COMMIT` closes the current table, blank lines and `#` comments are skipped,
and any other line is `UnrecognizedLine`.  The spec is ambiguous about a
bare `-A` line without a counter prefix ("default to zero/zero" versus
"treated as malformed"); the primary grammar sentence is followed and the
rule is accepted with zero counters — no claim depends on this case. -/
def parseStep (st : ParseState) (line : String) : Except ViolatedRule ParseState :=
  let cs := line.data
  if isBlank cs then Except.ok st
  else if charsBeginWith ['#'] cs then Except.ok st
  else if trimChars cs = ['C','O','M','M','I','T'] then
    match st.current with
    | some tab => Except.ok { finished := st.finished ++ [tab], current := none }
    | none => Except.error ViolatedRule.unrecognizedLine
  else if charsBeginWith ['*'] cs then
    Except.ok { finished := flushState st,
                current := some (String.mk (trimChars (cs.drop 1)), []) }
  else if charsBeginWith [':'] cs then
    match st.current with
    | none => Except.error ViolatedRule.unrecognizedLine
    | some (tn, chains) =>
      let rest := cs.drop 1
      let name := takeUntilSpace rest
      let afterName := dropThroughSpace rest
      let policy := takeUntilSpace afterName
      let ctr := dropThroughSpace afterName
      match parseCounters ctr with
      | some pb =>
        Except.ok
          { finished := st.finished,
            current := some (tn, chains ++
              [(String.mk name,
                { policy := String.mk policy, packets := pb.1, bytes := pb.2,
                  rules := [] })]) }
      | none => Except.error ViolatedRule.malformedChainLine
  else if charsBeginWith ['['] cs then
    match st.current with
    | none => Except.error ViolatedRule.unrecognizedLine
    | some (tn, chains) =>
      match parseCounters (takeUntilSpace cs) with
      | none => Except.error ViolatedRule.unrecognizedLine
      | some pb =>
        let body := dropThroughSpace cs
        if charsBeginWith ['-', 'A', ' '] body then
          let chainName := takeUntilSpace (body.drop 3)
          match appendRuleToChain chains (String.mk chainName)
              { body := String.mk body, packets := pb.1, bytes := pb.2 } with
          | some chains2 =>
            Except.ok { finished := st.finished, current := some (tn, chains2) }
          | none => Except.error ViolatedRule.unknownChain
        else Except.error ViolatedRule.unrecognizedLine
  else if charsBeginWith ['-', 'A', ' '] cs then
    match st.current with
    | none => Except.error ViolatedRule.unrecognizedLine
    | some (tn, chains) =>
      let chainName := takeUntilSpace (cs.drop 3)
      match appendRuleToChain chains (String.mk chainName)
          { body := String.mk cs, packets := 0, bytes := 0 } with
      | some chains2 =>
        Except.ok { finished := st.finished, current := some (tn, chains2) }
      | none => Except.error ViolatedRule.unknownChain
  else Except.error ViolatedRule.unrecognizedLine

/-- The dump split at newlines, in order. -/
def lines (s : String) : List String :=
  (splitOnChar '\n' s.data).map fun l => String.mk l

/-- Modelled from the spec: single-pass driver — the first malformed line
aborts parsing and is reported with its 1-based line number (§4.1). -/
def parseLines (st : ParseState) (n : Nat) : List String → Except ParseError RawRuleset
  | [] => Except.ok (flushState st)
  | l :: rest =>
    match parseStep st l with
    | Except.ok st2 => parseLines st2 (n + 1) rest
    | Except.error v => Except.error { lineNum := n, line := l, rule := v }

/-- Modelled from the spec: `parse(rawText) -> Result<Ruleset, ParseError>`
(§4.1); the `iptables` package implementing it is not among the provided
sources. -/
def parse (input : String) : Except ParseError RawRuleset :=
  parseLines { finished := [], current := none } 1 (lines input)

theorem parseLines_error_line (ls : List String) (st : ParseState) (n : Nat)
    (e : ParseError) (h : parseLines st n ls = Except.error e) :
    n ≤ e.lineNum ∧ ls.get? (e.lineNum - n) = some e.line := by
  induction ls generalizing st n with
  | nil => simp [parseLines] at h
  | cons l rest ih =>
    cases hstep : parseStep st l with
    | ok st2 =>
      have hh : parseLines st2 (n + 1) rest = Except.error e := by
        rw [← h]; simp [parseLines, hstep]
      have hrec := ih st2 (n + 1) hh
      refine ⟨by omega, ?_⟩
      have hgt : n + 1 ≤ e.lineNum := hrec.1
      have hsub : e.lineNum - n = (e.lineNum - (n + 1)) + 1 := by omega
      rw [hsub, List.get?_cons_succ]
      exact hrec.2
    | error v =>
      have hh : Except.error { lineNum := n, line := l, rule := v } =
          (Except.error e : Except ParseError RawRuleset) := by
        rw [← h]; simp [parseLines, hstep]
      have h2 : ({ lineNum := n, line := l, rule := v } : ParseError) = e := by
        injection hh
      subst h2
      exact ⟨Nat.le_refl n, by simp⟩

/-- C9: parsing stops at the first malformed line and returns a ParseError
identifying that line's 1-based number, its content and the violated rule;
no ruleset is returned. -/
theorem parse_error_first_line (input : String) (e : ParseError)
    (h : parse input = Except.error e) :
    1 ≤ e.lineNum ∧ (lines input).get? (e.lineNum - 1) = some e.line ∧
    ∀ rs : RawRuleset, parse input ≠ Except.ok rs := by
  have hrec := parseLines_error_line (lines input)
    { finished := [], current := none } 1 e h
  refine ⟨hrec.1, hrec.2, fun rs hc => ?_⟩
  rw [h] at hc
  exact Except.noConfusion hc

/-- Witness for C9: a dump whose second line carries the non-numeric chain
counter `[x:0]` fails at exactly line 2 with that line as content, even
though a further well-formed line follows. -/
theorem parse_error_first_line_witness :
    1 ≤ (2 : Nat) ∧
    (lines "*filter\n:CHAIN ACCEPT [x:0]\n:OK ACCEPT [0:0]").get? (2 - 1) =
      some ":CHAIN ACCEPT [x:0]" := by
  have h := parse_error_first_line "*filter\n:CHAIN ACCEPT [x:0]\n:OK ACCEPT [0:0]"
    { lineNum := 2, line := ":CHAIN ACCEPT [x:0]",
      rule := ViolatedRule.malformedChainLine }
    (by rfl)
  exact ⟨h.1, h.2.1⟩

/-- A chain as `Collect` consumes it: its rules already carry derived
identifiers. -/
structure Chain where
  policy : String
  packets : Nat
  bytes : Nat
  rules : List Rule
  deriving DecidableEq

/-- A table whose chains carry identified rules. -/
abbrev Table := List (String × Chain)

/-- A ruleset whose chains carry identified rules. -/
abbrev Ruleset := List (String × Table)

/-- One metric sent on the channel by `Collect`: the constructor names the
metric descriptor, the arguments are its label values and sample. -/
inductive Metric where
  | scrapeDuration (seconds : Nat)
  | scrapeSuccess (value : Nat)
  | defaultPackets (table chain policy : String) (value : Nat)
  | defaultBytes (table chain policy : String) (value : Nat)
  | rulePackets (table chain rule : String) (value : Nat)
  | ruleBytes (table chain rule : String) (value : Nat)
  deriving DecidableEq

/-- Concatenation of the lists produced per element, in order. -/
def concatMap {α β : Type} (f : α → List β) : List α → List β
  | [] => []
  | a :: l => f a ++ concatMap f l

/-- The two rule metrics emitted per aggregated identifier entry
(`Collect` lines 149–166). -/
def ruleEntryMetrics (tableName chainName : String) (e : String × ruleValues) :
    List Metric :=
  [Metric.rulePackets tableName chainName e.1 e.2.packets,
   Metric.ruleBytes tableName chainName e.1 e.2.bytes]

/-- The metrics `Collect` emits for one chain (lines 117–166): the two
default-policy counters, then the deduplicated per-identifier counters. -/
def chainMetrics (tableName : String) (e : String × Chain) : List Metric :=
  Metric.defaultPackets tableName e.1 e.2.policy e.2.packets ::
  Metric.defaultBytes tableName e.1 e.2.policy e.2.bytes ::
  concatMap (ruleEntryMetrics tableName e.1) (aggregateRules e.2.rules)

/-- The metrics `Collect` emits for one table. -/
def tableMetrics (e : String × Table) : List Metric :=
  concatMap (chainMetrics e.1) e.2

/-- Collect (lines 103–167): the duration gauge first; a GetTables error —
or a successful result holding zero tables — yields scrape-success 0 and
nothing further, otherwise scrape-success 1 followed by every chain's
metrics.  Go map iteration order is arbitrary; the model iterates in list
order, on which no claim depends. -/
def collect (duration : Nat) (result : Except ParseError Ruleset) : List Metric :=
  match result with
  | Except.error _ => [Metric.scrapeDuration duration, Metric.scrapeSuccess 0]
  | Except.ok tables =>
    if tables.length = 0 then
      [Metric.scrapeDuration duration, Metric.scrapeSuccess 0]
    else
      Metric.scrapeDuration duration :: Metric.scrapeSuccess 1 ::
        concatMap tableMetrics tables

/-- The distinct scrape-failure conditions `Collect` can log. -/
inductive ScrapeError where
  | fromGetTables (e : ParseError)
  | emptyOutput
  deriving DecidableEq

/-- The error `Collect` reports for a scrape, if any: a GetTables failure,
or the distinct empty-output condition it raises itself when the parsed
result holds no tables (lines 106–108). -/
def scrapeErr (result : Except ParseError Ruleset) : Option ScrapeError :=
  match result with
  | Except.error e => some (ScrapeError.fromGetTables e)
  | Except.ok tables =>
    if tables.length = 0 then some ScrapeError.emptyOutput else none

/-- The diagnostic `Collect` attaches to the empty-output condition. -/
def emptyOutputMsg : String :=
  "no output from iptables-save; this is probably due to insufficient permissions"

/-- Whether a metric is one of the four counter families. -/
def isCounterMetric : Metric → Bool
  | Metric.defaultPackets _ _ _ _ => true
  | Metric.defaultBytes _ _ _ _ => true
  | Metric.rulePackets _ _ _ _ => true
  | Metric.ruleBytes _ _ _ _ => true
  | _ => false

/-- C4: a failed scrape emits the success gauge at 0 and no default-policy
or per-identifier counter metric at all, while a successful scrape (a parse
result with at least one table) emits the success gauge at 1. -/
theorem scrape_failure_no_partial_metrics (d : Nat) (e : ParseError)
    (rs : Ruleset) (hrs : rs ≠ []) :
    Metric.scrapeSuccess 0 ∈ collect d (Except.error e) ∧
    (∀ m ∈ collect d (Except.error e), isCounterMetric m = false) ∧
    Metric.scrapeSuccess 1 ∈ collect d (Except.ok rs) := by
  refine ⟨by simp [collect], ?_, ?_⟩
  · intro m hm
    simp only [collect, List.mem_cons, List.mem_singleton] at hm
    rcases hm with h | h | h
    · subst h; rfl
    · subst h; rfl
    · exact absurd h (List.not_mem_nil m)
  · have hlen : ¬ rs.length = 0 := fun h0 => hrs (List.length_eq_zero.mp h0)
    simp [collect, hlen]

/-- Witness for C4 at a concrete failed scrape and a concrete one-table
success. -/
theorem scrape_failure_no_partial_metrics_witness :
    Metric.scrapeSuccess 0 ∈
      collect 0 (Except.error
        { lineNum := 1, line := "bogus", rule := ViolatedRule.unrecognizedLine }) ∧
    Metric.scrapeSuccess 1 ∈ collect 0 (Except.ok [("filter", [])]) := by
  have h := scrape_failure_no_partial_metrics 0
    { lineNum := 1, line := "bogus", rule := ViolatedRule.unrecognizedLine }
    [("filter", [])] (by decide)
  exact ⟨h.1, h.2.2⟩

/-- C5: a successful tool invocation yielding zero parsed tables is reported
as a failed scrape — success gauge 0, no other metrics — under the distinct
empty-output condition, not as a silent zero-metric success. -/
theorem empty_tables_is_failure (d : Nat) (e : ParseError) :
    scrapeErr (Except.ok ([] : Ruleset)) = some ScrapeError.emptyOutput ∧
    collect d (Except.ok ([] : Ruleset)) =
      [Metric.scrapeDuration d, Metric.scrapeSuccess 0] ∧
    ScrapeError.emptyOutput ≠ ScrapeError.fromGetTables e := by
  refine ⟨rfl, rfl, fun hc => ScrapeError.noConfusion hc⟩

/-- Witness for C5 at a concrete duration and parse error. -/
theorem empty_tables_is_failure_witness :
    scrapeErr (Except.ok ([] : Ruleset)) = some ScrapeError.emptyOutput ∧
    collect 3 (Except.ok ([] : Ruleset)) =
      [Metric.scrapeDuration 3, Metric.scrapeSuccess 0] :=
  ⟨(empty_tables_is_failure 3
      { lineNum := 1, line := "", rule := ViolatedRule.unrecognizedLine }).1,
   (empty_tables_is_failure 3
      { lineNum := 1, line := "", rule := ViolatedRule.unrecognizedLine }).2.1⟩

/-- Whether a metric is the default-packets counter labeled for the given
table and chain. -/
def isDefaultPacketsFor (tn cn : String) : Metric → Bool
  | Metric.defaultPackets t c _ _ => t == tn && c == cn
  | _ => false

/-- Whether a metric is the default-bytes counter labeled for the given
table and chain. -/
def isDefaultBytesFor (tn cn : String) : Metric → Bool
  | Metric.defaultBytes t c _ _ => t == tn && c == cn
  | _ => false

theorem filter_concatMap {α β : Type} (p : β → Bool) (f : α → List β)
    (l : List α) :
    (concatMap f l).filter p = concatMap (fun a => (f a).filter p) l := by
  induction l with
  | nil => rfl
  | cons a l ih => simp [concatMap, List.filter_append, ih]

theorem concatMap_eq_nil {α β : Type} (f : α → List β) (l : List α)
    (h : ∀ a ∈ l, f a = []) : concatMap f l = [] := by
  induction l with
  | nil => rfl
  | cons a rest ih =>
    simp [concatMap, h a (List.mem_cons_self a rest),
      ih fun a2 hm => h a2 (List.mem_cons_of_mem a hm)]

theorem concatMap_eq_of_unique {α β : Type} (l : List (String × α)) (k : String)
    (v : α) (f : String × α → List β)
    (hmem : (k, v) ∈ l) (hnodup : (l.map Prod.fst).Nodup)
    (hother : ∀ e ∈ l, ¬ e.1 = k → f e = []) : concatMap f l = f (k, v) := by
  induction l with
  | nil => exact absurd hmem (List.not_mem_nil _)
  | cons e rest ih =>
    rw [List.map_cons, List.nodup_cons] at hnodup
    rcases List.mem_cons.mp hmem with he | he
    · subst he
      have hrest : concatMap f rest = [] := by
        apply concatMap_eq_nil
        intro e2 hm2
        apply hother e2 (List.mem_cons_of_mem _ hm2)
        intro hk
        have hmm : e2.1 ∈ rest.map Prod.fst := List.mem_map_of_mem Prod.fst hm2
        rw [hk] at hmm
        exact hnodup.1 hmm
      simp [concatMap, hrest]
    · have hke : ¬ e.1 = k := by
        intro hk
        exact hnodup.1 (hk ▸ List.mem_map_of_mem Prod.fst he)
      have hfe : f e = [] := hother e (List.mem_cons_self e rest) hke
      rw [concatMap, hfe, List.nil_append]
      exact ih he hnodup.2 fun e2 hm2 => hother e2 (List.mem_cons_of_mem e hm2)

theorem filter_ruleEntries_defPackets (tn cn tn2 cn2 : String) (rc : ruleCounter) :
    (concatMap (ruleEntryMetrics tn2 cn2) rc).filter (isDefaultPacketsFor tn cn)
      = [] := by
  induction rc with
  | nil => rfl
  | cons e rest ih =>
    simp [concatMap, List.filter_append, ruleEntryMetrics, isDefaultPacketsFor, ih]

theorem filter_ruleEntries_defBytes (tn cn tn2 cn2 : String) (rc : ruleCounter) :
    (concatMap (ruleEntryMetrics tn2 cn2) rc).filter (isDefaultBytesFor tn cn)
      = [] := by
  induction rc with
  | nil => rfl
  | cons e rest ih =>
    simp [concatMap, List.filter_append, ruleEntryMetrics, isDefaultBytesFor, ih]

theorem filter_chainMetrics_defPackets (tn cn tn2 : String) (e : String × Chain) :
    (chainMetrics tn2 e).filter (isDefaultPacketsFor tn cn) =
      if tn2 = tn ∧ e.1 = cn then
        [Metric.defaultPackets tn2 e.1 e.2.policy e.2.packets]
      else [] := by
  obtain ⟨cn2, ch⟩ := e
  simp only [chainMetrics, List.filter_cons]
  rw [filter_ruleEntries_defPackets]
  by_cases h1 : tn2 = tn
  · by_cases h2 : cn2 = cn
    · simp [isDefaultPacketsFor, isDefaultBytesFor, h1, h2]
    · simp [isDefaultPacketsFor, isDefaultBytesFor, h1, h2]
  · simp [isDefaultPacketsFor, isDefaultBytesFor, h1]

theorem filter_chainMetrics_defBytes (tn cn tn2 : String) (e : String × Chain) :
    (chainMetrics tn2 e).filter (isDefaultBytesFor tn cn) =
      if tn2 = tn ∧ e.1 = cn then
        [Metric.defaultBytes tn2 e.1 e.2.policy e.2.bytes]
      else [] := by
  obtain ⟨cn2, ch⟩ := e
  simp only [chainMetrics, List.filter_cons]
  rw [filter_ruleEntries_defBytes]
  by_cases h1 : tn2 = tn
  · by_cases h2 : cn2 = cn
    · simp [isDefaultPacketsFor, isDefaultBytesFor, h1, h2]
    · simp [isDefaultPacketsFor, isDefaultBytesFor, h1, h2]
  · simp [isDefaultPacketsFor, isDefaultBytesFor, h1]

/-- C7: for every chain of every table of a successfully parsed ruleset, the
scrape emits exactly one default-policy packets metric and exactly one
default-policy bytes metric labeled (table, chain, policy) and carrying that
chain's default-policy counters. -/
theorem default_policy_emitted_once (d : Nat) (rs : Ruleset) (tn cn : String)
    (t : Table) (ch : Chain)
    (hnt : (rs.map Prod.fst).Nodup) (ht : (tn, t) ∈ rs)
    (hnc : (t.map Prod.fst).Nodup) (hc : (cn, ch) ∈ t) :
    (collect d (Except.ok rs)).filter (isDefaultPacketsFor tn cn) =
      [Metric.defaultPackets tn cn ch.policy ch.packets] ∧
    (collect d (Except.ok rs)).filter (isDefaultBytesFor tn cn) =
      [Metric.defaultBytes tn cn ch.policy ch.bytes] := by
  have hne : ¬ rs.length = 0 := by
    intro h0
    rw [List.length_eq_zero] at h0
    subst h0
    exact absurd ht (List.not_mem_nil _)
  have hcol : collect d (Except.ok rs) =
      Metric.scrapeDuration d :: Metric.scrapeSuccess 1 ::
        concatMap tableMetrics rs := by
    simp [collect, hne]
  constructor
  · rw [hcol]
    have hhead : (Metric.scrapeDuration d :: Metric.scrapeSuccess 1 ::
        concatMap tableMetrics rs).filter (isDefaultPacketsFor tn cn) =
        (concatMap tableMetrics rs).filter (isDefaultPacketsFor tn cn) := by
      simp [List.filter_cons, isDefaultPacketsFor]
    rw [hhead, filter_concatMap]
    have hother : ∀ e ∈ rs, ¬ e.1 = tn →
        (tableMetrics e).filter (isDefaultPacketsFor tn cn) = [] := by
      intro e he hne2
      rw [tableMetrics, filter_concatMap]
      apply concatMap_eq_nil
      intro c hcm
      rw [filter_chainMetrics_defPackets]
      simp [hne2]
    rw [concatMap_eq_of_unique rs tn t
      (fun e => (tableMetrics e).filter (isDefaultPacketsFor tn cn)) ht hnt hother]
    rw [tableMetrics, filter_concatMap]
    have hother2 : ∀ c ∈ t, ¬ c.1 = cn →
        (chainMetrics (tn, t).1 c).filter (isDefaultPacketsFor tn cn) = [] := by
      intro c hcm hne2
      rw [filter_chainMetrics_defPackets]
      simp [hne2]
    rw [concatMap_eq_of_unique t cn ch
      (fun c => (chainMetrics (tn, t).1 c).filter (isDefaultPacketsFor tn cn))
      hc hnc hother2]
    rw [filter_chainMetrics_defPackets]
    simp
  · rw [hcol]
    have hhead : (Metric.scrapeDuration d :: Metric.scrapeSuccess 1 ::
        concatMap tableMetrics rs).filter (isDefaultBytesFor tn cn) =
        (concatMap tableMetrics rs).filter (isDefaultBytesFor tn cn) := by
      simp [List.filter_cons, isDefaultBytesFor]
    rw [hhead, filter_concatMap]
    have hother : ∀ e ∈ rs, ¬ e.1 = tn →
        (tableMetrics e).filter (isDefaultBytesFor tn cn) = [] := by
      intro e he hne2
      rw [tableMetrics, filter_concatMap]
      apply concatMap_eq_nil
      intro c hcm
      rw [filter_chainMetrics_defBytes]
      simp [hne2]
    rw [concatMap_eq_of_unique rs tn t
      (fun e => (tableMetrics e).filter (isDefaultBytesFor tn cn)) ht hnt hother]
    rw [tableMetrics, filter_concatMap]
    have hother2 : ∀ c ∈ t, ¬ c.1 = cn →
        (chainMetrics (tn, t).1 c).filter (isDefaultBytesFor tn cn) = [] := by
      intro c hcm hne2
      rw [filter_chainMetrics_defBytes]
      simp [hne2]
    rw [concatMap_eq_of_unique t cn ch
      (fun c => (chainMetrics (tn, t).1 c).filter (isDefaultBytesFor tn cn))
      hc hnc hother2]
    rw [filter_chainMetrics_defBytes]
    simp

/-- Witness for C7: a two-table ruleset emits exactly one default-policy
packets metric and one default-policy bytes metric for chain FORWARD of
table filter, carrying its counters. -/
theorem default_policy_emitted_once_witness :
    (collect 0 (Except.ok
      [("filter",
        [("INPUT", { policy := "ACCEPT", packets := 1, bytes := 10, rules := [] }),
         ("FORWARD", { policy := "DROP", packets := 7, bytes := 70,
                       rules := [{ rule := "r", packets := 1, bytes := 2 }] })]),
       ("nat",
        [("PREROUTING", { policy := "ACCEPT", packets := 3, bytes := 30,
                          rules := [] })])])).filter
      (isDefaultPacketsFor "filter" "FORWARD") =
      [Metric.defaultPackets "filter" "FORWARD" "DROP" 7] ∧
    (collect 0 (Except.ok
      [("filter",
        [("INPUT", { policy := "ACCEPT", packets := 1, bytes := 10, rules := [] }),
         ("FORWARD", { policy := "DROP", packets := 7, bytes := 70,
                       rules := [{ rule := "r", packets := 1, bytes := 2 }] })]),
       ("nat",
        [("PREROUTING", { policy := "ACCEPT", packets := 3, bytes := 30,
                          rules := [] })])])).filter
      (isDefaultBytesFor "filter" "FORWARD") =
      [Metric.defaultBytes "filter" "FORWARD" "DROP" 70] := by
  exact default_policy_emitted_once 0
    [("filter",
      [("INPUT", { policy := "ACCEPT", packets := 1, bytes := 10, rules := [] }),
       ("FORWARD", { policy := "DROP", packets := 7, bytes := 70,
                     rules := [{ rule := "r", packets := 1, bytes := 2 }] })]),
     ("nat",
      [("PREROUTING", { policy := "ACCEPT", packets := 3, bytes := 30,
                        rules := [] })])]
    "filter" "FORWARD"
    [("INPUT", { policy := "ACCEPT", packets := 1, bytes := 10, rules := [] }),
     ("FORWARD", { policy := "DROP", packets := 7, bytes := 70,
                   rules := [{ rule := "r", packets := 1, bytes := 2 }] })]
    { policy := "DROP", packets := 7, bytes := 70,
      rules := [{ rule := "r", packets := 1, bytes := 2 }] }
    (by decide) (by decide) (by decide) (by decide)

/-- The collector under verification (`collector`, iptables_exporter.go line
31): it holds the compiled capture pattern, modelled per §9 of the spec as
the identifier-derivation strategy the compiled regexp denotes. -/
structure collector where
  capture : String → Option String

/-- Modelled from the spec: identifier derivation applied to one parsed
chain (§4.2); performed inside the `iptables` package, which is not among
the provided sources. -/
def identifyChain (p : String → Option String) (c : RawChain) : Chain :=
  { policy := c.policy, packets := c.packets, bytes := c.bytes,
    rules := applyPattern p c.rules }

/-- Modelled from the spec: identifier derivation over a whole ruleset. -/
def identifyRuleset (p : String → Option String) (rs : RawRuleset) : Ruleset :=
  rs.map fun t => (t.1, t.2.map fun c => (c.1, identifyChain p c.2))

/-- Modelled from the spec: `iptables.GetTables` — capture the external
tool's output (out of scope), parse it, and derive identifiers with the
compiled pattern; only parsing can fail, matching cannot (§4.2). -/
def GetTables (p : String → Option String) (raw : String) :
    Except ParseError Ruleset :=
  (parse raw).map (identifyRuleset p)

/-- NewCollector (lines 86–91): `regexp.MustCompile` panics on an invalid
pattern, so construction fails exactly when compilation does.  The external
regexp engine is the `compile` argument, Modelled from the spec:
`InvalidPattern` is fatal at configuration time (§7). -/
def NewCollector (compile : String → Option (String → Option String))
    (captureRE : String) : Option collector :=
  (compile captureRE).map fun p => { capture := p }

/-- Whether a result is a success. -/
def isOkResult {ε α : Type} : Except ε α → Bool
  | Except.ok _ => true
  | Except.error _ => false

/-- C6: constructing the collector succeeds exactly when the capture pattern
compiles — an invalid pattern is rejected before any scrape and the system
never serves with it — and for any collector that was constructed, per-rule
matching never fails a scrape: a scrape with its pattern succeeds exactly
when parsing the dump does. -/
theorem invalid_pattern_fails_fast
    (compile : String → Option (String → Option String)) (re : String) :
    ((NewCollector compile re).isSome ↔ (compile re).isSome) ∧
    (compile re = none → NewCollector compile re = none) ∧
    (∀ c : collector, NewCollector compile re = some c → ∀ raw : String,
      isOkResult (GetTables c.capture raw) = isOkResult (parse raw)) := by
  refine ⟨by simp [NewCollector], fun h => by simp [NewCollector, h], ?_⟩
  intro c hcon raw
  cases hp : parse raw with
  | ok rs => simp [GetTables, hp, isOkResult, Except.map]
  | error e => simp [GetTables, hp, isOkResult, Except.map]

/-- A model regexp engine for the witness: it rejects the single pattern
"(" and compiles everything else to the identity strategy. -/
def compileEx : String → Option (String → Option String) := fun s =>
  if s = "(" then none else some fun body => some body

/-- Witness for C6: the invalid pattern "(" yields no collector, and a
collector built from a valid pattern scrapes successfully exactly when
parsing does. -/
theorem invalid_pattern_fails_fast_witness :
    NewCollector compileEx "(" = none ∧
    isOkResult (GetTables (collector.mk fun body => some body).capture "*filter") =
      isOkResult (parse "*filter") :=
  ⟨(invalid_pattern_fails_fast compileEx "(").2.1 rfl,
   (invalid_pattern_fails_fast compileEx ".*").2.2
     (collector.mk fun body => some body) rfl "*filter"⟩

end IptablesExporter
